import Mathlib

/-!
Shallow embedding of `addfile.py`: a one-shot file organizer that classifies a
file by MIME type (`classifica_file`), moves it into a category subdirectory
(`sposta_file`), and appends a record to a CSV ledger (`scrivi_log_csv`), with
`main` orchestrating classify → move → log.

Strings are modelled as `List Char`; the filesystem as an explicit state
(association list of files, a directory set, and the ledger content as an
optional list of serialized rows).
-/

/-- Strings of the embedded program, modelled as lists of characters. -/
abbrev Str := List Char

/-- Coercion from Lean string literals to the embedded string type. -/
def L (s : String) : Str := s.toList

/-- Embedding of Python `str.startswith`. -/
def startsWithStr : Str → Str → Bool
  | [], _ => true
  | _ :: _, [] => false
  | p :: ps, c :: cs => p = c && startsWithStr ps cs

/-- The sentinel media type produced by `get_mime_type` when the extension
mapping is inconclusive (`mime_type = 'Tipo sconosciuto'`). -/
def tipoSconosciuto : Str := L "Tipo sconosciuto"

/-- Embedding of `classifica_file` (addfile.py lines 58-72): classifies a
media-type string by `startswith` checks, returning the category directory
name or `none` for unrecognized types. -/
def classifica_file (mime_type : Str) : Option Str :=
  if startsWithStr (L "audio") mime_type then some (L "audio")
  else if startsWithStr (L "image") mime_type then some (L "immagini")
  else if startsWithStr (L "application") mime_type || startsWithStr (L "text") mime_type then
    some (L "documenti")
  else none

/-- The top-level token of a media-type string: everything before the first
slash. Used to state the spec's claimed token-based classification. -/
def topLevelToken (s : Str) : Str := s.takeWhile (fun c => c ≠ '/')

/-- The classification the spec claims: by the media type's top-level token,
not by string prefix. Stated from the spec's words for comparison with
`classifica_file`. -/
def spec_categoryOf (s : Str) : Option Str :=
  if topLevelToken s = L "audio" then some (L "audio")
  else if topLevelToken s = L "image" then some (L "immagini")
  else if topLevelToken s = L "application" ∨ topLevelToken s = L "text" then some (L "documenti")
  else none

/-- A CSV field must be quoted when it contains the delimiter, the quote
character, or a line-break character (Python `csv` QUOTE_MINIMAL). -/
def needsQuote (f : Str) : Bool :=
  f.any (fun c => c = ',' || c = '"' || c = '\r' || c = '\n')

/-- Doubling of embedded quote characters inside a quoted CSV field. -/
def escapeInner : Str → Str
  | [] => []
  | c :: cs => if c = '"' then '"' :: '"' :: escapeInner cs else c :: escapeInner cs

/-- Serialization of one CSV field: quoted with doubled inner quotes when it
contains special characters, plain text otherwise. -/
def escapeField (f : Str) : Str :=
  if needsQuote f then '"' :: (escapeInner f ++ ['"']) else f

/-- Serialization of one CSV record: fields joined by the comma delimiter. -/
def serializeRecord : List Str → Str
  | [] => []
  | [f] => escapeField f
  | f :: fs => escapeField f ++ ',' :: serializeRecord fs

/-- Conforming CSV reader, quoted-field part: input is positioned after the
opening quote; returns the field contents and the remainder after the closing
quote, or `none` when the quote is never closed. -/
def parseQuoted : Str → Option (Str × Str)
  | [] => none
  | c :: rest =>
    if c = '"' then
      match rest with
      | [] => some ([], [])
      | c2 :: rest2 =>
        if c2 = '"' then (parseQuoted rest2).map (fun p => ('"' :: p.1, p.2))
        else some ([], rest)
    else (parseQuoted rest).map (fun p => (c :: p.1, p.2))

/-- Conforming CSV reader, unquoted-field part: the field extends to the next
delimiter. -/
def parseUnquoted : Str → Str × Str
  | [] => ([], [])
  | c :: rest =>
    if c = ',' then ([], c :: rest)
    else
      let p := parseUnquoted rest
      (c :: p.1, p.2)

/-- Conforming CSV reader, one field: quoted when it opens with a quote
character, unquoted otherwise. -/
def parseField (l : Str) : Option (Str × Str) :=
  match l with
  | '"' :: rest => parseQuoted rest
  | _ => some (parseUnquoted l)

/-- Conforming CSV reader, one record, with explicit recursion fuel: fields
separated by the delimiter, consuming the whole input. Every call consumes at
least the field's delimiter, so one unit of fuel per character suffices. -/
def parseRecordAux : Nat → Str → Option (List Str)
  | 0, _ => none
  | fuel + 1, l =>
    match parseField l with
    | none => none
    | some (f, rest) =>
      match rest with
      | [] => some [f]
      | ',' :: rest2 => (parseRecordAux fuel rest2).map (fun fs => f :: fs)
      | _ => none

/-- Conforming CSV reader, one record: fields separated by the delimiter,
consuming the whole input. -/
def parseRecord (l : Str) : Option (List Str) := parseRecordAux (l.length + 1) l

/-- Record written to the ledger for one organized file: name, media type,
size in bytes (already rendered as text), final path. -/
structure FileInfo where
  nome : Str
  tipo : Str
  sizeByte : Str
  percorso : Str

/-- The fixed CSV header fields of `scrivi_log_csv` (addfile.py line 114):
`intestazioni = ['Nome', 'Tipo', 'Size Byte', 'Percorso']`. -/
def intestazioni : List Str := [L "Nome", L "Tipo", L "Size Byte", L "Percorso"]

/-- The serialized header row written by `writer.writeheader()`. -/
def headerRow : Str := serializeRecord intestazioni

/-- The serialized record row written by `writer.writerow(file_info)`: the four
fields in the fixed `intestazioni` order. -/
def writerow (fi : FileInfo) : Str := serializeRecord [fi.nome, fi.tipo, fi.sizeByte, fi.percorso]

/-- Embedding of `scrivi_log_csv` (addfile.py lines 100-124). The ledger file
is `none` when `csv_path` does not exist, otherwise `some` of its rows. The
file is opened in append mode (creating it when absent), the header is written
only when the file did not exist (`os.path.exists` check), then the record row
is appended. -/
def scrivi_log_csv (file_info : FileInfo) (ledger : Option (List Str)) : List Str :=
  let file_esiste := ledger.isSome
  let rows := ledger.getD []
  let rows2 := if file_esiste then rows else rows ++ [headerRow]
  rows2 ++ [writerow file_info]

/-- Iterated ledger state after a sequence of `scrivi_log_csv` calls against
the same ledger path; each successful call persists its rows. -/
def ledgerAfter : List FileInfo → Option (List Str) → Option (List Str)
  | [], st => st
  | fi :: rest, st => ledgerAfter rest (some (scrivi_log_csv fi st))

/-- Abstract filesystem state: regular files (path with byte size), the set of
existing directories, and the content of the recap ledger file. -/
structure FS where
  files : List (Str × Nat)
  dirs : List Str
  ledger : Option (List Str)

/-- Size lookup of a file path, modelling `os.path.getsize` and existence. -/
def lookupFile (p : Str) : List (Str × Nat) → Option Nat
  | [] => none
  | (q, sz) :: rest => if q = p then some sz else lookupFile p rest

/-- Embedding of `os.path.join` for POSIX paths. -/
def pathJoin (a b : Str) : Str :=
  if b.head? = some '/' then b
  else if a = [] then b
  else if a.getLast? = some '/' then a ++ b
  else a ++ '/' :: b

/-- Embedding of `os.path.basename`: the part after the last slash. -/
def basename (p : Str) : Str := (p.reverse.takeWhile (fun c => c ≠ '/')).reverse

/-- A path is absolute when it starts with a slash. -/
def isAbsolute (p : Str) : Bool := p.head? = some '/'

/-- Components of a path, split at slashes. -/
def pathComponents (p : Str) : List Str := p.splitOnP (fun c => c = '/')

/-- A normalized POSIX path has no `.` components (`os.path.normpath` removes
them). -/
def isNormalized (p : Str) : Bool := ¬ (pathComponents p).contains (L ".")

/-- Embedding of `os.makedirs` without `exist_ok`: fails when the directory
already exists, otherwise creates it. -/
def makedirs (d : Str) (fs : FS) : Option FS :=
  if d ∈ fs.dirs then none else some { fs with dirs := d :: fs.dirs }

/-- Embedding of `shutil.move`: fails when the source is missing, otherwise
the file disappears from the source path and appears at the destination,
silently replacing any existing destination file. -/
def fsMove (src dst : Str) (fs : FS) : Option FS :=
  match lookupFile src fs.files with
  | none => none
  | some sz =>
    some { fs with files := (dst, sz) :: fs.files.filter (fun e => e.1 ≠ src && e.1 ≠ dst) }

/-- Embedding of `sposta_file` (addfile.py lines 74-98): build the category
directory path, create it only when `os.path.exists` says it is absent, then
move the file there and return the new path. The returned state reflects the
side effects performed before any failure; `none` in the second component
models the raised exception. -/
def sposta_file (file_path folder_path categoria : Str) (fs : FS) : FS × Option Str :=
  let destinazione_cartella := pathJoin folder_path categoria
  match (if destinazione_cartella ∈ fs.dirs then some fs else makedirs destinazione_cartella fs) with
  | none => (fs, none)
  | some fs1 =>
    let nome_file := basename file_path
    let nuovo_percorso := pathJoin destinazione_cartella nome_file
    match fsMove file_path nuovo_percorso fs1 with
    | none => (fs1, none)
    | some fs2 => (fs2, some nuovo_percorso)

/-- Rendering of a byte count as decimal text, as Python `str(int)` does for
the `Size Byte` CSV field. -/
def natToStr (n : Nat) : Str := Nat.toDigits 10 n

/-- Observable outcome of one `main` run (addfile.py lines 193-236): the exit
code of the process, which diagnostic messages were printed (the skip notice
of line 205, the ledger-failure warning of line 225, the final summary of
lines 229-236), and the resulting filesystem state. -/
structure RunResult where
  exitCode : Nat
  printedSkipped : Bool
  warnedLogFail : Bool
  printedSummary : Bool
  fs : FS

/-- Embedding of the core of `main` (addfile.py lines 193-236), after the CLI
glue has validated the folder and file name: classify the file, skip
unrecognized types with exit code 0, move recognized files, then append to the
ledger, downgrading a ledger-write failure to a printed warning. `guess`
models the injected `mimetypes.guess_type` extension mapping and
`ledgerFails` whether the ledger append raises. -/
def main_core (guess : Str → Option Str) (ledgerFails : Bool)
    (filename folder_path : Str) (fs : FS) : RunResult :=
  let file_path := pathJoin folder_path filename
  match lookupFile file_path fs.files with
  | none => ⟨1, false, false, false, fs⟩
  | some size =>
    let mime_type := (guess file_path).getD tipoSconosciuto
    match classifica_file mime_type with
    | none => ⟨0, true, false, false, fs⟩
    | some categoria =>
      match sposta_file file_path folder_path categoria fs with
      | (fs1, none) => ⟨1, false, false, false, fs1⟩
      | (fs1, some nuovo_percorso) =>
        let file_info : FileInfo := ⟨filename, mime_type, natToStr size, nuovo_percorso⟩
        if ledgerFails then ⟨0, false, true, true, fs1⟩
        else ⟨0, false, false, true, { fs1 with ledger := some (scrivi_log_csv file_info fs1.ledger) }⟩

/-- Two prefixes of the same string are comparable: one starts with the
other. -/
theorem startsWithStr_comparable : ∀ (s p q : Str), startsWithStr p s = true →
    startsWithStr q s = true → startsWithStr p q = true ∨ startsWithStr q p = true := by
  intro s
  induction s with
  | nil =>
    intro p q hp _
    cases p with
    | nil => left; rfl
    | cons a as => simp [startsWithStr] at hp
  | cons c cs ih =>
    intro p q hp hq
    cases p with
    | nil => left; rfl
    | cons a as =>
      cases q with
      | nil => right; rfl
      | cons b bs =>
        simp [startsWithStr] at hp hq
        obtain ⟨rfl, hp'⟩ := hp
        obtain ⟨rfl, hq'⟩ := hq
        rcases ih as bs hp' hq' with h | h
        · left; simp [startsWithStr, h]
        · right; simp [startsWithStr, h]

/-- Strings that do not start with each other cannot both be prefixes of one
string. -/
theorem startsWithStr_excl (p q s : Str) (hpq : startsWithStr p q = false)
    (hqp : startsWithStr q p = false) :
    ¬(startsWithStr p s = true ∧ startsWithStr q s = true) := by
  rintro ⟨hp, hq⟩
  rcases startsWithStr_comparable s p q hp hq with h | h
  · exact Bool.noConfusion (h.symm.trans hpq)
  · exact Bool.noConfusion (h.symm.trans hqp)

/-- Reading a quote-escaped field: the conforming reader undoes the doubling
of quotes and stops at the closing quote, provided what follows the closing
quote is not another quote (in a record it is the delimiter or the end). -/
theorem parseQuoted_escapeInner (f : Str) : ∀ rest : Str, rest.head? ≠ some '"' →
    parseQuoted (escapeInner f ++ '"' :: rest) = some (f, rest) := by
  induction f with
  | nil =>
    intro rest hr
    cases rest with
    | nil => simp [escapeInner, parseQuoted]
    | cons c2 r2 =>
      have hc2 : ¬c2 = '"' := by simpa using hr
      simp [escapeInner, parseQuoted, hc2]
  | cons c f' ih =>
    intro rest hr
    by_cases hc : c = '"'
    · subst hc
      simp only [escapeInner, if_pos rfl, List.cons_append]
      simp [parseQuoted, ih rest hr]
    · simp only [escapeInner, if_neg hc, List.cons_append]
      cases hE : escapeInner f' ++ '"' :: rest with
      | nil => simp at hE
      | cons d ds =>
        simp [parseQuoted, hc, ← hE, ih rest hr]

/-- Reading an unquoted field: the conforming reader takes characters up to
the delimiter, so a delimiter-free field followed by a delimiter or the end of
the record is read back exactly. -/
theorem parseUnquoted_append (f : Str) : ∀ rest : Str, (∀ c ∈ f, c ≠ ',') →
    (rest = [] ∨ rest.head? = some ',') → parseUnquoted (f ++ rest) = (f, rest) := by
  induction f with
  | nil =>
    intro rest _ hr
    rcases hr with rfl | hr
    · simp [parseUnquoted]
    · cases rest with
      | nil => simp at hr
      | cons c r2 =>
        have hc : c = ',' := by simpa using hr
        subst hc
        simp [parseUnquoted]
  | cons c f' ih =>
    intro rest hf hr
    have hc : ¬c = ',' := hf c (by simp)
    simp [parseUnquoted, hc, ih rest (fun d hd => hf d (by simp [hd])) hr]

/-- Reading one serialized field followed by the rest of a record recovers the
field exactly and leaves the rest untouched. -/
theorem parseField_escapeField (f : Str) (rest : Str)
    (hr : rest = [] ∨ rest.head? = some ',') :
    parseField (escapeField f ++ rest) = some (f, rest) := by
  by_cases hq : needsQuote f = true
  · have hr' : rest.head? ≠ some '"' := by
      rcases hr with rfl | hr
      · simp
      · rw [hr]; simp
    simp only [escapeField, if_pos hq, List.cons_append, List.append_assoc, List.cons_append]
    simp [parseField, parseQuoted_escapeInner f rest hr']
  · have hq' : needsQuote f = false := by simpa using hq
    have hall : ∀ c ∈ f, ¬(c = ',' ∨ c = '"' ∨ c = '\r' ∨ c = '\n') := by
      intro c hc
      have h0 := List.any_eq_false.mp hq' c hc
      simp at h0
      tauto
    rw [escapeField, if_neg (by simp [hq'])]
    cases f with
    | nil =>
      rcases hr with rfl | hr
      · simp [parseField, parseUnquoted]
      · cases rest with
        | nil => simp at hr
        | cons c r2 =>
          have hc : c = ',' := by simpa using hr
          subst hc
          simp [parseField, parseUnquoted]
    | cons c f' =>
      have hcq : ¬c = '"' := fun h => (hall c (by simp)) (by simp [h])
      have hcomma : ∀ d ∈ c :: f', d ≠ ',' := fun d hd h =>
        (hall d hd) (by simp [h])
      simp only [List.cons_append]
      simp [parseField, hcq]
      have := parseUnquoted_append (c :: f') rest hcomma hr
      simpa [parseUnquoted, hcomma c (by simp)] using this

/-- A record has at most one field fewer than its serialization has
characters, since the delimiters alone separate the fields. -/
theorem length_le_serializeRecord : ∀ fields : List Str,
    fields.length ≤ (serializeRecord fields).length + 1 := by
  intro fields
  induction fields with
  | nil => simp [serializeRecord]
  | cons f fs ih =>
    cases fs with
    | nil => simp [serializeRecord]
    | cons g fs' =>
      simp only [serializeRecord, List.length_append, List.length_cons] at ih ⊢
      omega

/-- Round trip of the record serialization at any sufficient fuel. -/
theorem parseRecordAux_serializeRecord : ∀ (fields : List Str) (fuel : Nat), fields ≠ [] →
    fields.length ≤ fuel → parseRecordAux fuel (serializeRecord fields) = some fields := by
  intro fields
  induction fields with
  | nil => intro fuel h; exact absurd rfl h
  | cons f fs ih =>
    intro fuel _ hlen
    cases fuel with
    | zero => simp at hlen
    | succ k =>
      cases fs with
      | nil =>
        have h1 : parseField (escapeField f ++ []) = some (f, []) :=
          parseField_escapeField f [] (Or.inl rfl)
        rw [List.append_nil] at h1
        simp [serializeRecord, parseRecordAux, h1]
      | cons g fs' =>
        have h1 : parseField (escapeField f ++ ',' :: serializeRecord (g :: fs')) =
            some (f, ',' :: serializeRecord (g :: fs')) :=
          parseField_escapeField f (',' :: serializeRecord (g :: fs')) (Or.inr rfl)
        have h2 := ih k (by simp) (by simpa using Nat.lt_succ_iff.mp (Nat.lt_of_lt_of_le (by simp) hlen))
        simp [serializeRecord, parseRecordAux, h1, h2]

/-- Round trip of the record serialization: a conforming reader reconstructs
every field list exactly. -/
theorem parseRecord_serializeRecord (fields : List Str) (h : fields ≠ []) :
    parseRecord (serializeRecord fields) = some fields :=
  parseRecordAux_serializeRecord fields ((serializeRecord fields).length + 1) h
    (length_le_serializeRecord fields)

/-- Lookup in a filtered file list misses when the filter keeps no entry with
the looked-up path. -/
theorem lookupFile_filter_none (p : Str) (f : Str × Nat → Bool)
    (hf : ∀ e, f e = true → ¬e.1 = p) :
    ∀ l : List (Str × Nat), lookupFile p (l.filter f) = none := by
  intro l
  induction l with
  | nil => simp [lookupFile]
  | cons e rest ih =>
    by_cases he : f e = true
    · obtain ⟨q, sz⟩ := e
      have : ¬q = p := hf (q, sz) he
      simp [List.filter_cons, he, lookupFile, this, ih]
    · simp [List.filter_cons, Bool.eq_false_iff.mpr he, ih]

/-- Lookup in a filtered file list agrees with lookup in the original when the
filter keeps every entry with the looked-up path. -/
theorem lookupFile_filter_eq (p : Str) (f : Str × Nat → Bool)
    (hf : ∀ e, e.1 = p → f e = true) :
    ∀ l : List (Str × Nat), lookupFile p (l.filter f) = lookupFile p l := by
  intro l
  induction l with
  | nil => simp
  | cons e rest ih =>
    obtain ⟨q, sz⟩ := e
    by_cases hq : q = p
    · obtain rfl : q = p := hq
      have hfe : f (q, sz) = true := hf (q, sz) rfl
      simp [List.filter_cons, hfe, lookupFile]
    · by_cases he : f (q, sz) = true
      · simp [List.filter_cons, he, lookupFile, hq, ih]
      · simp [List.filter_cons, Bool.eq_false_iff.mpr he, lookupFile, hq, ih]

/-- Appending to an existing ledger only ever adds record rows, one per call,
in call order. -/
theorem ledgerAfter_some : ∀ (fis : List FileInfo) (rows : List Str),
    ledgerAfter fis (some rows) = some (rows ++ fis.map writerow) := by
  intro fis
  induction fis with
  | nil => intro rows; simp [ledgerAfter]
  | cons fi rest ih =>
    intro rows
    simp [ledgerAfter, scrivi_log_csv, ih]


/-- Properties of the file list produced by a successful move: the file is at
the destination with its size intact, it is gone from the source path, and
every other file survives. -/
theorem movedFiles_spec (file_path nuovo : Str) (files : List (Str × Nat)) (sz : Nat) :
    lookupFile nuovo ((nuovo, sz) :: files.filter (fun e => e.1 ≠ file_path && e.1 ≠ nuovo)) =
      some sz ∧
    (¬file_path = nuovo →
      lookupFile file_path
        ((nuovo, sz) :: files.filter (fun e => e.1 ≠ file_path && e.1 ≠ nuovo)) = none) ∧
    (∀ q s', ¬q = file_path → lookupFile q files = some s' →
      ∃ s'', lookupFile q
        ((nuovo, sz) :: files.filter (fun e => e.1 ≠ file_path && e.1 ≠ nuovo)) = some s'') := by
  refine ⟨by simp [lookupFile], ?_, ?_⟩
  · intro hne
    simp only [lookupFile]
    rw [if_neg (fun hh => hne hh.symm)]
    exact lookupFile_filter_none file_path _ (fun e he => by simp at he; exact he.1) files
  · intro q s' hq hlk
    by_cases hqn : q = nuovo
    · exact ⟨sz, by simp [lookupFile, hqn]⟩
    · refine ⟨s', ?_⟩
      simp only [lookupFile]
      rw [if_neg (fun hh => hqn hh.symm)]
      rw [lookupFile_filter_eq q _ (fun e he => by simp [he, hq, hqn])]
      exact hlk

/-- Behaviour of `sposta_file` when the source file exists: the destination
directory is present afterwards (created only if it was absent), the file is
at `root/category/basename` with its size intact, the returned path is that
destination, the ledger is untouched, the source path no longer resolves, and
every other file survives. -/
theorem sposta_file_success (file_path folder_path categoria : Str) (fs : FS) (sz : Nat)
    (h : lookupFile file_path fs.files = some sz) :
    ∃ fs2, sposta_file file_path folder_path categoria fs =
        (fs2, some (pathJoin (pathJoin folder_path categoria) (basename file_path))) ∧
      pathJoin folder_path categoria ∈ fs2.dirs ∧
      lookupFile (pathJoin (pathJoin folder_path categoria) (basename file_path)) fs2.files =
        some sz ∧
      fs2.ledger = fs.ledger ∧
      (¬file_path = pathJoin (pathJoin folder_path categoria) (basename file_path) →
        lookupFile file_path fs2.files = none) ∧
      (∀ q s', ¬q = file_path → lookupFile q fs.files = some s' →
        ∃ s'', lookupFile q fs2.files = some s'') := by
  obtain ⟨hnew, hgone, hkeep⟩ :=
    movedFiles_spec file_path (pathJoin (pathJoin folder_path categoria) (basename file_path))
      fs.files sz
  by_cases hd : pathJoin folder_path categoria ∈ fs.dirs
  · refine ⟨⟨(pathJoin (pathJoin folder_path categoria) (basename file_path), sz) ::
        fs.files.filter (fun e => e.1 ≠ file_path &&
          e.1 ≠ pathJoin (pathJoin folder_path categoria) (basename file_path)),
        fs.dirs, fs.ledger⟩, ?_, hd, hnew, rfl, hgone, hkeep⟩
    simp [sposta_file, hd, fsMove, h]
  · refine ⟨⟨(pathJoin (pathJoin folder_path categoria) (basename file_path), sz) ::
        fs.files.filter (fun e => e.1 ≠ file_path &&
          e.1 ≠ pathJoin (pathJoin folder_path categoria) (basename file_path)),
        pathJoin folder_path categoria :: fs.dirs, fs.ledger⟩, ?_, by simp, hnew, rfl, hgone, hkeep⟩
    simp [sposta_file, hd, makedirs, fsMove, h]

/-- Claim C1, counterexample: `classifica_file` classifies by `startswith`,
not by the top-level token, so `texture/plain` — whose top-level token
`texture` is none of the four recognized tokens and which the claimed
token-based mapping `spec_categoryOf` sends to unrecognized — is classified
as a document because the string starts with `text`. -/
theorem c1_counterexample :
    classifica_file (L "texture/plain") = some (L "documenti") ∧
    topLevelToken (L "texture/plain") = L "texture" ∧
    spec_categoryOf (L "texture/plain") = none := by decide

/-- Claim C1 (amended): `classifica_file` is a pure total function on
media-type strings that classifies by string prefix: a string is audio exactly
when it starts with `audio`, image exactly when it starts with `image`,
document exactly when it starts with `application` or `text`, and
unrecognized exactly when it starts with none of the four; the unknown
sentinel is unrecognized. -/
theorem c1_classifica_file_prefix (s : Str) :
    ((classifica_file s = some (L "audio") ↔ startsWithStr (L "audio") s = true) ∧
      (classifica_file s = some (L "immagini") ↔ startsWithStr (L "image") s = true) ∧
      (classifica_file s = some (L "documenti") ↔
        (startsWithStr (L "application") s = true ∨ startsWithStr (L "text") s = true)) ∧
      (classifica_file s = none ↔ (startsWithStr (L "audio") s = false ∧
        startsWithStr (L "image") s = false ∧ startsWithStr (L "application") s = false ∧
        startsWithStr (L "text") s = false))) ∧
    classifica_file tipoSconosciuto = none := by
  refine ⟨?_, by decide⟩
  have hAI := startsWithStr_excl (L "audio") (L "image") s (by decide) (by decide)
  have hAP := startsWithStr_excl (L "audio") (L "application") s (by decide) (by decide)
  have hAT := startsWithStr_excl (L "audio") (L "text") s (by decide) (by decide)
  have hIP := startsWithStr_excl (L "image") (L "application") s (by decide) (by decide)
  have hIT := startsWithStr_excl (L "image") (L "text") s (by decide) (by decide)
  have hPT := startsWithStr_excl (L "application") (L "text") s (by decide) (by decide)
  have d1 : ¬(L "audio" = L "immagini") := by decide
  have d2 : ¬(L "audio" = L "documenti") := by decide
  have d3 : ¬(L "immagini" = L "audio") := by decide
  have d4 : ¬(L "immagini" = L "documenti") := by decide
  have d5 : ¬(L "documenti" = L "audio") := by decide
  have d6 : ¬(L "documenti" = L "immagini") := by decide
  cases ha : startsWithStr (L "audio") s <;>
    cases hi : startsWithStr (L "image") s <;>
      cases hap : startsWithStr (L "application") s <;>
        cases ht : startsWithStr (L "text") s <;>
          simp_all [classifica_file]

/-- Claim C2: starting from a nonexistent ledger file, N successive
`scrivi_log_csv` appends produce exactly one header row followed by exactly N
record rows; the header is written only by the call that creates the file. -/
theorem c2_header_once (fis : List FileInfo) (h : fis ≠ []) :
    ledgerAfter fis none = some (headerRow :: fis.map writerow) ∧
    (fis.map writerow).length = fis.length := by
  refine ⟨?_, by simp⟩
  cases fis with
  | nil => exact absurd rfl h
  | cons fi rest =>
    show ledgerAfter rest (some (scrivi_log_csv fi none)) = _
    rw [ledgerAfter_some]
    simp [scrivi_log_csv]

/-- Witness for claim C2 at two concrete records. -/
theorem c2_header_once_witness :
    ledgerAfter [⟨L "a.mp3", L "audio/mpeg", L "5", L "./files/audio/a.mp3"⟩,
        ⟨L "b.pdf", L "application/pdf", L "9", L "./files/documenti/b.pdf"⟩] none =
      some (headerRow :: ([⟨L "a.mp3", L "audio/mpeg", L "5", L "./files/audio/a.mp3"⟩,
        ⟨L "b.pdf", L "application/pdf", L "9", L "./files/documenti/b.pdf"⟩] : List FileInfo).map writerow) ∧
    (([⟨L "a.mp3", L "audio/mpeg", L "5", L "./files/audio/a.mp3"⟩,
        ⟨L "b.pdf", L "application/pdf", L "9", L "./files/documenti/b.pdf"⟩] : List FileInfo).map writerow).length =
      ([⟨L "a.mp3", L "audio/mpeg", L "5", L "./files/audio/a.mp3"⟩,
        ⟨L "b.pdf", L "application/pdf", L "9", L "./files/documenti/b.pdf"⟩] : List FileInfo).length :=
  c2_header_once _ (List.cons_ne_nil _ _)

/-- Claim C3: when the ledger append fails after a successful relocation, the
orchestrator leaves the file at its new location (the move is not undone, the
ledger is untouched), terminates with exit code 0 while printing the
ledger-failure warning and the summary — an outcome distinguishable from full
success (same exit code, but no warning is printed there) and from full
failure (exit code 1, no summary). -/
theorem c3_degraded_success (guess : Str → Option Str) (filename folder_path : Str) (fs : FS)
    (sz : Nat) (categoria : Str)
    (hsz : lookupFile (pathJoin folder_path filename) fs.files = some sz)
    (hcat : classifica_file ((guess (pathJoin folder_path filename)).getD tipoSconosciuto) =
      some categoria) :
    (main_core guess true filename folder_path fs).exitCode = 0 ∧
    (main_core guess true filename folder_path fs).warnedLogFail = true ∧
    (main_core guess true filename folder_path fs).printedSummary = true ∧
    (main_core guess true filename folder_path fs).fs.ledger = fs.ledger ∧
    lookupFile (pathJoin (pathJoin folder_path categoria) (basename (pathJoin folder_path filename)))
      (main_core guess true filename folder_path fs).fs.files = some sz ∧
    (main_core guess false filename folder_path fs).exitCode = 0 ∧
    (main_core guess false filename folder_path fs).warnedLogFail = false := by
  obtain ⟨fs2, hsp, _, hnew, hled, _, _⟩ :=
    sposta_file_success (pathJoin folder_path filename) folder_path categoria fs sz hsz
  simp [main_core, hsz, hcat, hsp, hled, hnew]

/-- Witness for claim C3 at a concrete audio file and filesystem. -/
theorem c3_degraded_success_witness :
    (main_core (fun _ => some (L "audio/mpeg")) true (L "a.mp3") (L "./files")
      ⟨[(L "./files/a.mp3", 5)], [], none⟩).exitCode = 0 ∧
    (main_core (fun _ => some (L "audio/mpeg")) true (L "a.mp3") (L "./files")
      ⟨[(L "./files/a.mp3", 5)], [], none⟩).warnedLogFail = true ∧
    (main_core (fun _ => some (L "audio/mpeg")) true (L "a.mp3") (L "./files")
      ⟨[(L "./files/a.mp3", 5)], [], none⟩).printedSummary = true ∧
    (main_core (fun _ => some (L "audio/mpeg")) true (L "a.mp3") (L "./files")
      ⟨[(L "./files/a.mp3", 5)], [], none⟩).fs.ledger =
      (⟨[(L "./files/a.mp3", 5)], [], none⟩ : FS).ledger ∧
    lookupFile (pathJoin (pathJoin (L "./files") (L "audio")) (basename (pathJoin (L "./files") (L "a.mp3"))))
      (main_core (fun _ => some (L "audio/mpeg")) true (L "a.mp3") (L "./files")
        ⟨[(L "./files/a.mp3", 5)], [], none⟩).fs.files = some 5 ∧
    (main_core (fun _ => some (L "audio/mpeg")) false (L "a.mp3") (L "./files")
      ⟨[(L "./files/a.mp3", 5)], [], none⟩).exitCode = 0 ∧
    (main_core (fun _ => some (L "audio/mpeg")) false (L "a.mp3") (L "./files")
      ⟨[(L "./files/a.mp3", 5)], [], none⟩).warnedLogFail = false :=
  c3_degraded_success _ _ _ _ 5 (L "audio") (by decide) (by decide)

/-- Claim C4: an input whose media type is unrecognized terminates the
pipeline successfully (exit code 0) with the skip notice printed and no side
effects at all: the filesystem state — files, directories, ledger — is
returned unchanged. -/
theorem c4_skipped_no_side_effects (guess : Str → Option Str) (ledgerFails : Bool)
    (filename folder_path : Str) (fs : FS) (sz : Nat)
    (hsz : lookupFile (pathJoin folder_path filename) fs.files = some sz)
    (hcat : classifica_file ((guess (pathJoin folder_path filename)).getD tipoSconosciuto) = none) :
    main_core guess ledgerFails filename folder_path fs = ⟨0, true, false, false, fs⟩ := by
  simp [main_core, hsz, hcat]

/-- Witness for claim C4 at a concrete unknown-extension file. -/
theorem c4_skipped_no_side_effects_witness :
    main_core (fun _ => none) false (L "song.xyz") (L "./files")
      ⟨[(L "./files/song.xyz", 7)], [], none⟩ =
      ⟨0, true, false, false, ⟨[(L "./files/song.xyz", 7)], [], none⟩⟩ :=
  c4_skipped_no_side_effects _ _ _ _ _ 7 (by decide) (by decide)

/-- Claim C5, counterexample: the header row the code writes parses to the
Italian column names `Nome, Tipo, Size Byte, Percorso`, not to the claimed
`Name, Type, SizeBytes, Path`. -/
theorem c5_counterexample :
    scrivi_log_csv ⟨L "report.pdf", L "application/pdf", L "100", L "./files/documenti/report.pdf"⟩
        none =
      [headerRow,
        writerow ⟨L "report.pdf", L "application/pdf", L "100", L "./files/documenti/report.pdf"⟩] ∧
    parseRecord headerRow = some intestazioni ∧
    intestazioni ≠ [L "Name", L "Type", L "SizeBytes", L "Path"] := by decide

/-- Claim C5 (amended): every ledger file created by `scrivi_log_csv` begins
with a header row whose column names are exactly `Nome, Tipo, Size Byte,
Percorso` in that fixed order, and every record row serializes its four fields
in that same column order. -/
theorem c5_header_columns (fi : FileInfo) :
    scrivi_log_csv fi none = [headerRow, writerow fi] ∧
    parseRecord headerRow = some [L "Nome", L "Tipo", L "Size Byte", L "Percorso"] ∧
    parseRecord (writerow fi) = some [fi.nome, fi.tipo, fi.sizeByte, fi.percorso] := by
  refine ⟨by simp [scrivi_log_csv], by decide, ?_⟩
  exact parseRecord_serializeRecord [fi.nome, fi.tipo, fi.sizeByte, fi.percorso] (by simp)

/-- Claim C6, counterexample: the path `sposta_file` returns is the plain
`os.path.join` of its inputs, so for the relative root `./files` it is
`./files/audio/a.mp3` — neither absolute nor normalized. -/
theorem c6_counterexample :
    (sposta_file (L "./files/a.mp3") (L "./files") (L "audio")
        ⟨[(L "./files/a.mp3", 5)], [], none⟩).2 = some (L "./files/audio/a.mp3") ∧
    isAbsolute (L "./files/audio/a.mp3") = false ∧
    isNormalized (L "./files/audio/a.mp3") = false := by decide

/-- Claim C6 (amended): for every source file, root and category,
`sposta_file` moves the file to exactly `root/category/basename(filePath)`,
creating the category subdirectory first when absent, and returns that joined
destination path (which is relative and unnormalized whenever the root is). -/
theorem c6_sposta_file_dest (file_path folder_path categoria : Str) (fs : FS) (sz : Nat)
    (h : lookupFile file_path fs.files = some sz) :
    ∃ fs2, sposta_file file_path folder_path categoria fs =
        (fs2, some (pathJoin (pathJoin folder_path categoria) (basename file_path))) ∧
      pathJoin folder_path categoria ∈ fs2.dirs ∧
      lookupFile (pathJoin (pathJoin folder_path categoria) (basename file_path)) fs2.files =
        some sz := by
  obtain ⟨fs2, hsp, hdir, hnew, _, _, _⟩ :=
    sposta_file_success file_path folder_path categoria fs sz h
  exact ⟨fs2, hsp, hdir, hnew⟩

/-- Witness for claim C6 at a concrete document file. -/
theorem c6_sposta_file_dest_witness :
    ∃ fs2, sposta_file (L "./files/b.pdf") (L "./files") (L "documenti")
        ⟨[(L "./files/b.pdf", 9)], [], none⟩ =
        (fs2, some (pathJoin (pathJoin (L "./files") (L "documenti")) (basename (L "./files/b.pdf")))) ∧
      pathJoin (L "./files") (L "documenti") ∈ fs2.dirs ∧
      lookupFile (pathJoin (pathJoin (L "./files") (L "documenti")) (basename (L "./files/b.pdf")))
        fs2.files = some 9 :=
  c6_sposta_file_dest _ _ _ _ 9 (by decide)

/-- Claim C8: category-directory creation is idempotent — a first run creates
the category directory, and a second run for a different file of the same
category succeeds although the directory now already exists; `sposta_file`
succeeds whether or not `root/category` existed beforehand. -/
theorem c8_idempotent_dir_creation (folder_path categoria p1 p2 : Str) (fs : FS) (s1 s2 : Nat)
    (h1 : lookupFile p1 fs.files = some s1) (h2 : lookupFile p2 fs.files = some s2)
    (hne : ¬p2 = p1) :
    (sposta_file p1 folder_path categoria fs).2.isSome = true ∧
    pathJoin folder_path categoria ∈ (sposta_file p1 folder_path categoria fs).1.dirs ∧
    (sposta_file p2 folder_path categoria (sposta_file p1 folder_path categoria fs).1).2.isSome =
      true := by
  obtain ⟨fs2, hsp, hdir, _, _, _, hkeep⟩ := sposta_file_success p1 folder_path categoria fs s1 h1
  obtain ⟨s'', hlk2⟩ := hkeep p2 s2 hne h2
  obtain ⟨fs3, hsp2, _, _, _, _, _⟩ := sposta_file_success p2 folder_path categoria fs2 s'' hlk2
  refine ⟨?_, ?_, ?_⟩ <;> simp [hsp, hsp2, hdir]

/-- Witness for claim C8 at two concrete audio files sharing a category. -/
theorem c8_idempotent_dir_creation_witness :
    (sposta_file (L "./files/a.mp3") (L "./files") (L "audio")
      ⟨[(L "./files/a.mp3", 5), (L "./files/b.mp3", 6)], [], none⟩).2.isSome = true ∧
    pathJoin (L "./files") (L "audio") ∈
      (sposta_file (L "./files/a.mp3") (L "./files") (L "audio")
        ⟨[(L "./files/a.mp3", 5), (L "./files/b.mp3", 6)], [], none⟩).1.dirs ∧
    (sposta_file (L "./files/b.mp3") (L "./files") (L "audio")
      (sposta_file (L "./files/a.mp3") (L "./files") (L "audio")
        ⟨[(L "./files/a.mp3", 5), (L "./files/b.mp3", 6)], [], none⟩).1).2.isSome = true :=
  c8_idempotent_dir_creation _ _ _ _ _ 5 6 (by decide) (by decide) (by decide)

/-- Claim C9: round trip of the ledger serialization — a record whose name or
path contains the field delimiter or a line break is appended as the last row
by `scrivi_log_csv`, and a conforming reader reconstructs the exact original
field strings from that row. -/
theorem c9_roundtrip (fi : FileInfo) (rows : List Str)
    (h : ',' ∈ fi.nome ∨ ',' ∈ fi.percorso ∨ '\n' ∈ fi.nome ∨ '\n' ∈ fi.percorso) :
    (scrivi_log_csv fi (some rows)).getLast? = some (writerow fi) ∧
    parseRecord (writerow fi) = some [fi.nome, fi.tipo, fi.sizeByte, fi.percorso] := by
  refine ⟨?_, parseRecord_serializeRecord [fi.nome, fi.tipo, fi.sizeByte, fi.percorso] (by simp)⟩
  simp [scrivi_log_csv]

/-- Witness for claim C9 at a record with a comma in its name and path. -/
theorem c9_roundtrip_witness :
    (scrivi_log_csv ⟨L "a,b.mp3", L "audio/mpeg", L "5", L "./files/audio/a,b.mp3"⟩
      (some [headerRow])).getLast? =
      some (writerow ⟨L "a,b.mp3", L "audio/mpeg", L "5", L "./files/audio/a,b.mp3"⟩) ∧
    parseRecord (writerow ⟨L "a,b.mp3", L "audio/mpeg", L "5", L "./files/audio/a,b.mp3"⟩) =
      some [L "a,b.mp3", L "audio/mpeg", L "5", L "./files/audio/a,b.mp3"] :=
  c9_roundtrip _ _ (Or.inl (by decide))

/-- Claim C10: `scrivi_log_csv` decides whether to write the header solely
from whether the ledger path exists: appending to an existing empty ledger
writes the record row with no header, and any number of further appends never
introduce one. -/
theorem c10_header_from_existence_only :
    (∀ fi, scrivi_log_csv fi (some []) = [writerow fi]) ∧
    (∀ fis, ledgerAfter fis (some []) = some (fis.map writerow)) := by
  refine ⟨fun fi => by simp [scrivi_log_csv], fun fis => ?_⟩
  simpa using ledgerAfter_some fis []
